import Mathlib

/-!
Verification of the `useWebSerial` hook in
`src/app/components/SerialProvider/SerialProvider.tsx`.

The hook manages a single Web Serial session: connecting to a port, opening
and closing it, a terminator-framed read loop, writes, and modem control
signals.  The definitions below are a shallow embedding of that code: each
`async` operation of the hook becomes a pure function from the session state
(together with the values resolved by the awaited platform calls) to a result
record carrying the next state, the list of transport primitives invoked, and
the error thrown, if any.  Strings are modelled as `List Char`, byte streams
as `List Nat`.
-/

namespace SerialProvider

/-- The four values of `portState.current` (source type `PortState`:
`"closed" | "closing" | "open" | "opening"`).  `opened` stands for the
source's `"open"`, which is a keyword in Lean. -/
inductive PState where
  | closed
  | closing
  | opened
  | opening
  deriving DecidableEq

/-- Observable state of one `WebSerialPort` object: whether `port.readable`
is non-null, whether `port.readable.locked` holds, whether `port.writable`
is non-null, and the hook's own `cancelRequested` field. -/
structure Port where
  readable : Bool
  locked : Bool
  writable : Bool
  cancelRequested : Bool
  deriving DecidableEq

/-- The hook's session state: `portState.current`, `portRef.current`, and the
React state cells the claims refer to (`isOpen`, `isReading`,
`hasTriedAutoconnect`, `canUseSerial`).  The line-configuration cells
(`baudRate`, `bufferSize`, `dataBits`, `stopBits`, `flowControl`, `parity`)
and the polled input-signal cells are omitted: no claim below depends on
their values, only on the fact that `open` passes the configuration
snapshot, which is recorded by the `topen` transport call. -/
structure SessionState where
  portState : PState
  portRef : Option Port
  isOpen : Bool
  isReading : Bool
  hasTriedAutoconnect : Bool
  canUseSerial : Bool
  deriving DecidableEq

/-- Transport primitives invoked on the platform (ghost log used to state
which external calls an operation performs). `topen` is `port.open({...})`
with the session's line-configuration snapshot; `twrite` carries the encoded
bytes as text. -/
inductive TCall where
  | topen
  | tclose
  | tgetPorts
  | twrite (data : List Char)
  | tsetSignals (brk dtr rts : Bool)
  deriving DecidableEq

/-- The errors thrown by the hook's operations, named after the spec's error
kinds.  Source messages: `noPortSelected` is "useWebSerial: No port selected"
(and "no port selected" in the read functions), `alreadyOpen` is
"useWebSerial: Port already opened", `notOpen` is "useWebSerial: Port not
opened" (and "port not opened"), `portLocked` is "useWebSerial: Port is
locked (stopReading first)". -/
inductive SerialErr where
  | noPortSelected
  | alreadyOpen
  | notOpen
  | portLocked
  deriving DecidableEq

/-- Result of one operation: the next session state, the transport calls it
made, and the error it threw (`none` when it returned normally). -/
structure StepResult where
  state : SessionState
  calls : List TCall
  err : Option SerialErr
  deriving DecidableEq

/-- `openPort` (source lines 188-214).  Throws before touching any state when
no port is given or when `newPort.readable` is already non-null.  Otherwise
it awaits `newPort.open({...})`; `openSucceeds` says whether that transport
call resolved.  On success the port's streams exist (`readable`/`writable`
become non-null), `portRef.current` is set to this port, `portState.current`
becomes `"open"` and `isOpen` becomes true.  On transport failure the catch
block sets `portState.current = "closed"` and `isOpen = false`, leaving
`portRef.current` untouched. -/
def openPort (s : SessionState) (newPort : Option Port) (openSucceeds : Bool) :
    StepResult :=
  match newPort with
  | none => ⟨s, [], some .noPortSelected⟩
  | some p =>
    if p.readable then ⟨s, [], some .alreadyOpen⟩
    else if openSucceeds then
      ⟨{ s with portRef := some { p with readable := true, writable := true },
                portState := .opened,
                isOpen := true }, [.topen], none⟩
    else
      ⟨{ s with portState := .closed, isOpen := false }, [.topen], none⟩

/-- `closePort` (source lines 216-233).  Throws before any state change when
`portRef.current` is null, the port has no readable stream, or the readable
stream is locked.  Otherwise it awaits `port.close()` (which tears the
streams down) and sets `isOpen` to false.  It does NOT touch
`portState.current` and does NOT clear `portRef.current`. -/
def closePort (s : SessionState) : StepResult :=
  match s.portRef with
  | none => ⟨s, [], some .noPortSelected⟩
  | some p =>
    if !p.readable then ⟨s, [], some .notOpen⟩
    else if p.locked then ⟨s, [], some .portLocked⟩
    else ⟨{ s with isOpen := false,
                   portRef := some { p with readable := false, writable := false } },
          [.tclose], none⟩

/-- `startReading` (source lines 235-248): the part up to acquiring the
reader.  Throws when no port is selected or the port is not open; otherwise
sets `isReading`, clears `cancelRequested` and takes the stream lock via
`port.readable.getReader()`.  The loop body itself is modelled by
`runReader` below. -/
def startReading (s : SessionState) : StepResult :=
  match s.portRef with
  | none => ⟨s, [], some .noPortSelected⟩
  | some p =>
    if !p.readable then ⟨s, [], some .notOpen⟩
    else ⟨{ s with isReading := true,
                   portRef := some { p with cancelRequested := false, locked := true } },
          [], none⟩

/-- `stopReading` (source lines 269-281).  Throws when no port is selected or
the port is not open; otherwise sets `isReading` to false and raises the
`cancelRequested` flag.  It does NOT release the stream lock: that happens
only when the read loop observes the flag and runs its `finally`. -/
def stopReading (s : SessionState) : StepResult :=
  match s.portRef with
  | none => ⟨s, [], some .noPortSelected⟩
  | some p =>
    if !p.readable then ⟨s, [], some .notOpen⟩
    else ⟨{ s with isReading := false,
                   portRef := some { p with cancelRequested := true } },
          [], none⟩

/-- `reader.releaseLock()` in the `finally` of the read loop (source line
265): the read loop, after observing `cancelRequested` (or failing), releases
the stream lock.  A separate asynchronous step that `stopReading` does not
perform. -/
def releaseReadLock (s : SessionState) : SessionState :=
  match s.portRef with
  | none => s
  | some p => { s with portRef := some { p with locked := false } }

/-- `write` (source lines 287-299).  `port?.writable?.getWriter()` is
`undefined` when no port is held or it has no writable stream, and then
`writer?.write` and `writer?.releaseLock()` short-circuit: the call returns
normally with no transport call.  Otherwise the encoded `message + "\r\n"`
is written and the writer lock released in the `finally`. -/
def write (portRef : Option Port) (message : List Char) :
    List TCall × Option SerialErr :=
  match portRef with
  | none => ([], none)
  | some p =>
    if p.writable then ([.twrite (message ++ ['\r', '\n'])], none)
    else ([], none)

/-- The output-signal effect (source lines 335-344): it runs whenever any of
`dataTerminalReady`, `requestToSend`, `breakSignal` changes, and, when a port
with a readable stream is held, calls `port.setSignals` with an object
carrying all three current values. -/
def setSignalsEffect (portRef : Option Port) (brk dtr rts : Bool) : List TCall :=
  match portRef with
  | none => []
  | some p => if p.readable then [.tsetSignals brk dtr rts] else []

/-- Result of `autoConnectToPort`: `returned = some b` when the promise
resolved with `b`, `none` when it rejected (an exception from the inner
`openPort` propagated). -/
structure AutoResult where
  returned : Option Bool
  state : SessionState
  calls : List TCall
  deriving DecidableEq

/-- `autoConnectToPort` (source lines 148-166).  Only acts when
`canUseSerial` holds and `portState.current === "closed"`; it then moves to
`"opening"` and awaits `navigator.serial.getPorts()` (resolved value passed
as `availablePorts`).  With at least one port it awaits `openPort` on the
first and returns true without setting `hasTriedAutoconnect`; with none it
reverts the state to `"closed"`, sets `hasTriedAutoconnect` and returns
false. -/
def autoConnectToPort (s : SessionState) (availablePorts : List Port)
    (openSucceeds : Bool) : AutoResult :=
  if s.canUseSerial && s.portState == PState.closed then
    let s1 : SessionState := { s with portState := .opening }
    match availablePorts with
    | [] =>
      ⟨some false,
       { s1 with portState := .closed, hasTriedAutoconnect := true },
       [.tgetPorts]⟩
    | p :: _ =>
      let r := openPort s1 (some p) openSucceeds
      match r.err with
      | none => ⟨some true, r.state, .tgetPorts :: r.calls⟩
      | some _ => ⟨none, r.state, .tgetPorts :: r.calls⟩
  else ⟨some false, s, []⟩

/-- Guard of the auto-connect effect (source lines 347-357): the automatic
trigger fires only while `canUseSerial` holds, `hasTriedAutoconnect` is
still false and the state is `"closed"`. -/
def autoConnectEffectFires (s : SessionState) : Bool :=
  s.canUseSerial && !s.hasTriedAutoconnect && s.portState == PState.closed

/-- The one-time initialization effect (source lines 310-324): on first run
it awaits `navigator.serial.getPorts()` and, when at least one previously
authorized port exists, stores the first one in `portRef.current`.  It does
not touch `portState.current`.  (It also caches the list in the module-level
context and in the `ports` React state, which no claim depends on.) -/
def initGetPortsEffect (s : SessionState) (authorizedPorts : List Port) :
    SessionState :=
  match authorizedPorts with
  | [] => s
  | p :: _ => { s with portRef := some p }

/-- The result of `port.getInfo()`: the optional USB ids (absent when the
transport exposes no USB descriptor). -/
structure PortDescriptor where
  usbVendorId : Option Nat
  usbProductId : Option Nat
  deriving DecidableEq

/-- The object `portInfo` returns on success. -/
structure PortInfoResult where
  usbVendorId : Nat
  usbProductId : Nat
  usbId : List Char
  deriving DecidableEq

/-- JavaScript truthiness of `info.usbVendorId` / `info.usbProductId`:
`undefined` and `0` are falsy. -/
def truthyNat : Option Nat → Bool
  | none => false
  | some n => n != 0

/-- `n.toString(16).padStart(4, "0")`: lowercase hexadecimal digits padded
with leading zeros to at least four characters. -/
def hexPad4 (n : Nat) : List Char :=
  let ds := Nat.toDigits 16 n
  List.replicate (4 - ds.length) '0' ++ ds

/-- `portInfo` (source lines 172-186): when both USB ids are truthy it
returns them together with the `vendor:product` id string, otherwise null.
(`getD 0` reads the field that the guard has just established to be a truthy
number.) -/
def portInfo (d : PortDescriptor) : Option PortInfoResult :=
  if truthyNat d.usbVendorId && truthyNat d.usbProductId then
    some ⟨d.usbVendorId.getD 0, d.usbProductId.getD 0,
          hexPad4 (d.usbVendorId.getD 0) ++ [':'] ++ hexPad4 (d.usbProductId.getD 0)⟩
  else none

/-!
Text decoding (source lines 250-262).  The read loop creates one
`TextDecoder()` and calls `decoder.decode(value)` on each chunk WITHOUT
`{stream: true}`, so every call runs the WHATWG UTF-8 decoder over its chunk
as a complete stream: a pending (truncated) multi-byte sequence at the end of
a chunk is flushed to U+FFFD and the decoder state is reset before the next
chunk.  The definitions below embed the WHATWG UTF-8 decoder (errorMode
"replacement", the TextDecoder default) so that per-chunk decoding and
whole-stream decoding can be compared.
-/

/-- State of the WHATWG UTF-8 decoder: the code point being assembled, how
many continuation bytes are needed and seen, and the admissible range for
the next continuation byte. -/
structure Utf8State where
  codePoint : Nat
  bytesNeeded : Nat
  bytesSeen : Nat
  lower : Nat
  upper : Nat
  deriving DecidableEq

/-- The decoder's start state. -/
def utf8Init : Utf8State := ⟨0, 0, 0, 0x80, 0xBF⟩

/-- U+FFFD REPLACEMENT CHARACTER, emitted for every decoding error. -/
def replacementChar : Char := Char.ofNat 0xFFFD

/-- Classify a byte seen with no sequence pending: either it starts a
multi-byte sequence (new pending state) or it immediately yields a character
(an ASCII byte, or U+FFFD for an invalid lead byte). -/
def utf8StartByte (b : Nat) : Option Utf8State × Option Char :=
  if b < 0x80 then (none, some (Char.ofNat b))
  else if 0xC2 ≤ b ∧ b ≤ 0xDF then (some ⟨b % 0x20, 1, 0, 0x80, 0xBF⟩, none)
  else if 0xE0 ≤ b ∧ b ≤ 0xEF then
    (some ⟨b % 0x10, 2, 0, if b = 0xE0 then 0xA0 else 0x80,
           if b = 0xED then 0x9F else 0xBF⟩, none)
  else if 0xF0 ≤ b ∧ b ≤ 0xF4 then
    (some ⟨b % 8, 3, 0, if b = 0xF0 then 0x90 else 0x80,
           if b = 0xF4 then 0x8F else 0xBF⟩, none)
  else (none, some replacementChar)

/-- The WHATWG UTF-8 decoder over a complete stream: continuation bytes in
range extend the pending code point; a continuation byte out of range emits
U+FFFD and is reprocessed as a fresh lead byte; a truncated sequence at end
of stream is flushed to one U+FFFD. -/
def utf8DecodeAux : Utf8State → List Nat → List Char
  | st, [] => if st.bytesNeeded = 0 then [] else [replacementChar]
  | st, b :: bs =>
    if st.bytesNeeded = 0 then
      match utf8StartByte b with
      | (some st1, _) => utf8DecodeAux st1 bs
      | (none, some ch) => ch :: utf8DecodeAux utf8Init bs
      | (none, none) => utf8DecodeAux utf8Init bs
    else
      if st.lower ≤ b ∧ b ≤ st.upper then
        if st.bytesSeen + 1 = st.bytesNeeded then
          Char.ofNat (st.codePoint * 64 + b % 64) :: utf8DecodeAux utf8Init bs
        else
          utf8DecodeAux ⟨st.codePoint * 64 + b % 64, st.bytesNeeded,
                         st.bytesSeen + 1, 0x80, 0xBF⟩ bs
      else
        match utf8StartByte b with
        | (some st1, _) => replacementChar :: utf8DecodeAux st1 bs
        | (none, some ch) => replacementChar :: ch :: utf8DecodeAux utf8Init bs
        | (none, none) => replacementChar :: utf8DecodeAux utf8Init bs

/-- The "UTF-8 decode" hook of the encoding standard strips a leading byte
order mark; `TextDecoder` does this by default (`ignoreBOM` false). -/
def stripBOM : List Nat → List Nat
  | 0xEF :: 0xBB :: 0xBF :: rest => rest
  | l => l

/-- One `decoder.decode(bytes)` call without `{stream: true}`: decodes the
argument as a complete stream (flushing any truncated tail to U+FFFD) and
leaves the decoder reset. -/
def decodeString (bytes : List Nat) : List Char :=
  utf8DecodeAux utf8Init (stripBOM bytes)

/-- What the read loop's `completeString += decoder.decode(value)` actually
accumulates over a chunk sequence: each chunk decoded independently. -/
def decodePerChunk (chunks : List (List Nat)) : List Char :=
  (chunks.map decodeString).flatten

/-!
The framing loop of `startReading` (source lines 250-266):

    let completeString = "";
    do {
      await reader.read().then(({ done, value }) => {
        completeString += decoder.decode(value);
        if (done || completeString.endsWith("ch> ")) {
          onData(completeString);
          completeString = "";
          return;
        }
      });
    } while (!port.cancelRequested);

`runReader buf chunks` runs this body over a list of decoded text chunks
starting from accumulator `buf`, and returns the list of strings passed to
`onData` together with the final accumulator.  The `done` (end-of-stream)
emission and the `cancelRequested` exit are not part of the chunk list: the
list models exactly the data chunks the loop consumed, so an undelivered
remainder stays in the final accumulator.
-/

/-- The fixed message terminator `"ch> "` of `completeString.endsWith("ch> ")`. -/
def terminator : List Char := ['c', 'h', '>', ' ']

/-- The read-loop body over a list of decoded chunks: append the chunk to the
accumulator; if the accumulator now ends with the terminator, emit it and
reset the accumulator.  Returns (emitted messages, final accumulator). -/
def runReader : List Char → List (List Char) → List (List Char) × List Char
  | buf, [] => ([], buf)
  | buf, c :: cs =>
    if terminator.isSuffixOf (buf ++ c) then
      ((buf ++ c) :: (runReader [] cs).1, (runReader [] cs).2)
    else runReader (buf ++ c) cs

/-- The sequence of strings passed to `onData` for a chunk sequence. -/
def emittedMessages (chunks : List (List Char)) : List (List Char) :=
  (runReader [] chunks).1

/-- The text still buffered after the chunk sequence. -/
def finalBuffer (chunks : List (List Char)) : List Char :=
  (runReader [] chunks).2

/-- Number of occurrences of the terminator in a text, counted by start
position.  (The terminator `"ch> "` has no self-overlap, so this coincides
with the count of non-overlapping occurrences.) -/
def occCount : List Char → Nat
  | [] => 0
  | ch :: cs => (if terminator.isPrefixOf (ch :: cs) then 1 else 0) + occCount cs

/-- An occurrence of the terminator starts at position `i` of `t`. -/
def OccAt (t : List Char) (i : Nat) : Prop :=
  ∃ u v, t = u ++ (terminator ++ v) ∧ u.length = i

/-- Decidable test for an occurrence of the terminator starting at `i`. -/
def hasOccAt (t : List Char) (i : Nat) : Bool :=
  terminator.isPrefixOf (t.drop i)

/-- `Bdry base cs p`: `p` is the end position of one of the chunks of `cs`,
in a text where the chunks of `cs` start at position `base`. -/
def Bdry : Nat → List (List Char) → Nat → Prop
  | _, [], _ => False
  | base, c :: cs, p => p = base + c.length ∨ Bdry (base + c.length) cs p

/-- Decidable version of `Bdry`. -/
def bdryB : Nat → List (List Char) → Nat → Bool
  | _, [], _ => false
  | base, c :: cs, p => (p == base + c.length) || bdryB (base + c.length) cs p

/-- Every occurrence of the terminator in the concatenated text ends exactly
at a chunk boundary.  This is the condition under which the loop's
suffix-only check sees every occurrence. -/
def chunkAligned (chunks : List (List Char)) : Bool :=
  (List.range chunks.flatten.length).all fun i =>
    !(hasOccAt chunks.flatten i) || bdryB 0 chunks (i + 4)

/-! Concrete states used by the witnesses and counterexamples. -/

/-- A fresh session: closed, no handle, nothing tried yet, serial usable. -/
def initialSession : SessionState := ⟨.closed, none, false, false, false, true⟩

/-- A port as handed out by the chooser or registry: streams not yet open. -/
def freshPort : Port := ⟨false, false, false, false⟩

/-- A port after a successful `open`: streams exist, lock not held. -/
def openedPort : Port := ⟨true, false, true, false⟩

/-- A port whose readable stream is locked by a running read loop. -/
def lockedPort : Port := ⟨true, true, true, false⟩

/-- A session holding `openedPort` after a successful `openPort`. -/
def openSession : SessionState := ⟨.opened, some openedPort, true, false, false, true⟩

/-- A session holding `lockedPort` while the read loop runs. -/
def readingSession : SessionState := ⟨.opened, some lockedPort, true, true, false, true⟩

end SerialProvider

namespace SerialProvider

/-! Properties of terminator occurrences, used to settle the FrameReader
claim. -/

theorem terminator_length : terminator.length = 4 := rfl

theorem occAt_length {t : List Char} {i : Nat} (h : OccAt t i) : i + 4 ≤ t.length := by
  obtain ⟨u, v, ht, hu⟩ := h
  subst ht
  simp only [List.length_append, terminator_length]
  omega

theorem occAt_append_right {t s : List Char} {i : Nat} (h : OccAt t i) :
    OccAt (t ++ s) i := by
  obtain ⟨u, v, ht, hu⟩ := h
  exact ⟨u, v ++ s, by rw [ht]; simp [List.append_assoc], hu⟩

theorem occAt_shift {t s : List Char} {i : Nat} (h : OccAt s i) :
    OccAt (t ++ s) (t.length + i) := by
  obtain ⟨u, v, hs, hu⟩ := h
  exact ⟨t ++ u, v, by rw [hs]; simp [List.append_assoc], by simp [hu]⟩

theorem occAt_of_append_left {t s : List Char} {i : Nat} (h : OccAt (t ++ s) i)
    (hle : i + 4 ≤ t.length) : OccAt t i := by
  obtain ⟨u, v, huv, hu⟩ := h
  refine ⟨u, v.take (t.length - i - 4), ?_, hu⟩
  calc t = (t ++ s).take t.length := (List.take_left t s).symm
    _ = (u ++ (terminator ++ v)).take t.length := by rw [huv]
    _ = u ++ (terminator ++ v.take (t.length - i - 4)) := by
        rw [List.take_append_eq_append_take,
            List.take_of_length_le (show u.length ≤ t.length by omega),
            List.take_append_eq_append_take,
            List.take_of_length_le
              (show terminator.length ≤ t.length - u.length by
                rw [terminator_length]; omega)]
        rw [hu, terminator_length]

theorem hasOccAt_iff {t : List Char} {i : Nat} : hasOccAt t i = true ↔ OccAt t i := by
  unfold hasOccAt
  rw [List.isPrefixOf_iff_prefix]
  constructor
  · intro h
    obtain ⟨v, hv⟩ := h
    have hi : i < t.length := by
      by_contra hc
      push_neg at hc
      rw [List.drop_eq_nil_of_le hc] at hv
      exact absurd hv (by simp [terminator])
    refine ⟨t.take i, v, ?_, by simp [List.length_take]; omega⟩
    rw [hv]
    exact (List.take_append_drop i t).symm
  · rintro ⟨u, v, ht, hu⟩
    refine ⟨v, ?_⟩
    rw [ht]
    exact (List.drop_left' hu).symm

theorem occAt_no_overlap {t : List Char} {i j : Nat} (h1 : OccAt t i) (h2 : OccAt t j)
    (hij : i < j) (hover : j < i + 4) : False := by
  obtain ⟨u, v, huv, hu⟩ := h1
  obtain ⟨u', v', huv', hu'⟩ := h2
  have e1 : t.drop i = terminator ++ v := by
    rw [huv]
    exact List.drop_left' hu
  have e2 : t.drop i = u'.drop i ++ (terminator ++ v') := by
    rw [huv', List.drop_append_eq_append_drop, hu',
        (show i - j = 0 by omega), List.drop_zero]
  have hwlen : (u'.drop i).length = j - i := by
    rw [List.length_drop, hu']
  have e3 : terminator ++ v = u'.drop i ++ (terminator ++ v') := e1.symm.trans e2
  have e4 : terminator = u'.drop i ++ terminator.take (4 - (j - i)) := by
    have t1 : (terminator ++ v).take 4 = terminator := List.take_left' terminator_length
    have t2 : (u'.drop i ++ (terminator ++ v')).take 4
        = u'.drop i ++ (terminator ++ v').take (4 - (j - i)) := by
      rw [List.take_append_eq_append_take,
          List.take_of_length_le (show (u'.drop i).length ≤ 4 by rw [hwlen]; omega),
          hwlen]
    have t3 : (terminator ++ v').take (4 - (j - i)) = terminator.take (4 - (j - i)) :=
      List.take_append_of_le_length (by rw [terminator_length]; omega)
    calc terminator = (terminator ++ v).take 4 := t1.symm
      _ = (u'.drop i ++ (terminator ++ v')).take 4 := by rw [e3]
      _ = u'.drop i ++ (terminator ++ v').take (4 - (j - i)) := t2
      _ = u'.drop i ++ terminator.take (4 - (j - i)) := by rw [t3]
  have e5 : u'.drop i = terminator.take (j - i) := by
    have := congrArg (List.take (j - i)) e4
    rw [List.take_left' hwlen] at this
    exact this.symm
  rw [e5] at e4
  have hd : j - i = 1 ∨ j - i = 2 ∨ j - i = 3 := by omega
  rcases hd with hd | hd | hd <;> rw [hd] at e4 <;> exact absurd e4 (by decide)

theorem prefix_append_left {l t s : List Char} (h : l <+: t ++ s)
    (hle : l.length ≤ t.length) : l <+: t := by
  rw [List.prefix_iff_eq_take] at h ⊢
  rwa [List.take_append_of_le_length hle] at h

theorem occCount_eq_zero {t : List Char} (h : ∀ i, ¬ OccAt t i) : occCount t = 0 := by
  induction t with
  | nil => rfl
  | cons ch cs ih =>
    have hpre : terminator.isPrefixOf (ch :: cs) = false := by
      by_contra hc
      rw [Bool.not_eq_false, List.isPrefixOf_iff_prefix] at hc
      obtain ⟨v, hv⟩ := hc
      exact h 0 ⟨[], v, by simpa using hv.symm, rfl⟩
    simp only [occCount, hpre, Bool.false_eq_true, if_false, Nat.zero_add]
    refine ih fun i hi => h (1 + i) ?_
    exact occAt_shift (t := [ch]) hi

theorem occCount_append {t s : List Char}
    (h : ∀ i, OccAt (t ++ s) i → ¬(i < t.length ∧ t.length < i + 4)) :
    occCount (t ++ s) = occCount t + occCount s := by
  induction t with
  | nil => simp [occCount]
  | cons ch t' ih =>
    have heq : terminator.isPrefixOf (ch :: (t' ++ s)) = terminator.isPrefixOf (ch :: t') := by
      by_cases hl : 4 ≤ t'.length + 1
      · rw [Bool.eq_iff_iff, List.isPrefixOf_iff_prefix, List.isPrefixOf_iff_prefix]
        constructor
        · intro hp
          exact prefix_append_left (t := ch :: t') hp
            (by rw [terminator_length]; simpa using hl)
        · intro hp
          exact hp.trans (List.prefix_append (ch :: t') s)
      · have h2 : terminator.isPrefixOf (ch :: t') = false := by
          by_contra hc
          rw [Bool.not_eq_false, List.isPrefixOf_iff_prefix] at hc
          have := hc.length_le
          rw [terminator_length] at this
          simp only [List.length_cons] at this
          omega
        have h1 : terminator.isPrefixOf (ch :: (t' ++ s)) = false := by
          by_contra hc
          rw [Bool.not_eq_false, List.isPrefixOf_iff_prefix] at hc
          obtain ⟨v, hv⟩ := hc
          have hocc : OccAt ((ch :: t') ++ s) 0 := ⟨[], v, by simpa using hv.symm, rfl⟩
          refine h 0 hocc ⟨?_, ?_⟩ <;> simp only [List.length_cons] <;> omega
        rw [h1, h2]
    have ih' : occCount (t' ++ s) = occCount t' + occCount s := by
      refine ih fun i hi hand => ?_
      have h2 : OccAt ((ch :: t') ++ s) (1 + i) := occAt_shift (t := [ch]) hi
      refine h (1 + i) h2 ⟨?_, ?_⟩ <;> simp only [List.length_cons] <;> omega
    show occCount (ch :: (t' ++ s)) = occCount (ch :: t') + occCount s
    simp only [occCount, heq, ih']
    omega

theorem occCount_terminator : occCount terminator = 1 := by decide

theorem bdry_iff {base : Nat} {cs : List (List Char)} {p : Nat} :
    bdryB base cs p = true ↔ Bdry base cs p := by
  induction cs generalizing base with
  | nil => simp [bdryB, Bdry]
  | cons c cs ih => simp [bdryB, Bdry, ih]

theorem bdry_le {base : Nat} {cs : List (List Char)} {p : Nat} (h : Bdry base cs p) :
    base ≤ p := by
  induction cs generalizing base with
  | nil => exact absurd h (by simp [Bdry])
  | cons c cs ih =>
    simp only [Bdry] at h
    rcases h with h | h
    · omega
    · have := ih h
      omega

theorem bdry_shift {cs : List (List Char)} {k base p : Nat} :
    Bdry (base + k) cs (p + k) ↔ Bdry base cs p := by
  induction cs generalizing base with
  | nil => simp [Bdry]
  | cons c cs ih =>
    simp only [Bdry]
    constructor
    · rintro (h | h)
      · exact Or.inl (by omega)
      · refine Or.inr (ih.mp ?_)
        rw [show base + c.length + k = base + k + c.length from by omega]
        exact h
    · rintro (h | h)
      · exact Or.inl (by omega)
      · refine Or.inr ?_
        rw [show base + k + c.length = base + c.length + k from by omega]
        exact ih.mpr h

theorem isSuffixOf_exists {b : List Char} :
    terminator.isSuffixOf b = true ↔ ∃ u, b = u ++ terminator := by
  rw [List.isSuffixOf_iff_suffix]
  constructor
  · rintro ⟨u, hu⟩
    exact ⟨u, hu.symm⟩
  · rintro ⟨u, hu⟩
    exact ⟨u, hu.symm⟩

/-- Invariant of the read loop: over any chunk list whose terminator
occurrences all end at chunk boundaries (positions taken relative to the
start of the current accumulator `buf`), the loop emits one message per
occurrence, the emitted messages followed by the final accumulator
reconstitute the input text, the final accumulator contains no occurrence,
and every emitted message ends with the terminator and contains exactly one
occurrence. -/
theorem runReader_spec (cs : List (List Char)) :
    ∀ buf : List Char,
      (∀ i, OccAt (buf ++ cs.flatten) i → Bdry buf.length cs (i + 4)) →
      (runReader buf cs).1.length = occCount (buf ++ cs.flatten) ∧
      (runReader buf cs).1.flatten ++ (runReader buf cs).2 = buf ++ cs.flatten ∧
      occCount (runReader buf cs).2 = 0 ∧
      ∀ m ∈ (runReader buf cs).1, terminator.isSuffixOf m = true ∧ occCount m = 1 := by
  induction cs with
  | nil =>
    intro buf H
    have h0 : occCount buf = 0 := by
      apply occCount_eq_zero
      intro i hi
      have hB := H i (by simpa using hi)
      simp [Bdry] at hB
    exact ⟨by simpa [runReader] using h0.symm, by simp [runReader],
           by simpa [runReader] using h0, by simp [runReader]⟩
  | cons c cs ih =>
    intro buf H
    have hflat : buf ++ (c :: cs).flatten = (buf ++ c) ++ cs.flatten := by
      simp [List.append_assoc]
    have H' : ∀ i, OccAt ((buf ++ c) ++ cs.flatten) i →
        i + 4 = (buf ++ c).length ∨ Bdry (buf ++ c).length cs (i + 4) := by
      intro i hi
      have hx := H i (by rw [hflat]; exact hi)
      simp only [Bdry] at hx
      rcases hx with hx | hx
      · exact Or.inl (by simp only [List.length_append]; omega)
      · refine Or.inr ?_
        rw [List.length_append]
        exact hx
    by_cases hsuf : terminator.isSuffixOf (buf ++ c) = true
    · obtain ⟨u, hu⟩ := isSuffixOf_exists.mp hsuf
      have hrun : runReader buf (c :: cs)
          = ((buf ++ c) :: (runReader [] cs).1, (runReader [] cs).2) := by
        simp [runReader, hsuf]
      have hblen : (buf ++ c).length = u.length + 4 := by
        rw [hu]
        simp [terminator_length]
      have hA : ∀ i, OccAt (buf ++ c) i → i = u.length := by
        intro i hi
        have hlen := occAt_length hi
        by_contra hne
        have hocc2 := occAt_append_right (s := cs.flatten) hi
        rcases H' i hocc2 with h1 | h1
        · omega
        · have := bdry_le h1
          omega
      have hterm_occ : OccAt (buf ++ c) u.length := ⟨u, [], by simp [hu], rfl⟩
      have hBu : occCount u = 0 := by
        apply occCount_eq_zero
        intro i hi
        have h1 := occAt_length hi
        have h2 : OccAt (buf ++ c) i := by
          rw [hu]
          exact occAt_append_right hi
        have := hA i h2
        omega
      have hB : occCount (buf ++ c) = 1 := by
        have hstr : ∀ i, OccAt (u ++ terminator) i →
            ¬(i < u.length ∧ u.length < i + 4) := by
          intro i hi hand
          have h2 : OccAt (buf ++ c) i := by
            rw [hu]
            exact hi
          have := hA i h2
          omega
        rw [hu, occCount_append hstr, hBu, occCount_terminator]
      have hC : ∀ i, OccAt ((buf ++ c) ++ cs.flatten) i →
          ¬(i < (buf ++ c).length ∧ (buf ++ c).length < i + 4) := by
        intro i hi hand
        have hb2 := occAt_append_right (s := cs.flatten) hterm_occ
        exact occAt_no_overlap hb2 hi (by omega) (by omega)
      have hD : occCount ((buf ++ c) ++ cs.flatten) = 1 + occCount cs.flatten := by
        rw [occCount_append hC, hB]
      have hIH := ih [] ?hH
      case hH =>
        intro i hi
        simp only [List.nil_append] at hi
        have h2 := occAt_shift (t := buf ++ c) hi
        rcases H' _ h2 with h1 | h1
        · omega
        · have h3 : Bdry (0 + (buf ++ c).length) cs ((i + 4) + (buf ++ c).length) := by
            rw [show (0 : Nat) + (buf ++ c).length = (buf ++ c).length from by omega,
                show (i + 4) + (buf ++ c).length = (buf ++ c).length + (i + 4) from by omega]
            exact h1
          have h4 := (@bdry_shift cs ((buf ++ c).length) 0 (i + 4)).mp h3
          exact h4
      obtain ⟨ih1, ih2, ih3, ih4⟩ := hIH
      refine ⟨?_, ?_, ?_, ?_⟩ <;> rw [hrun]
      · simp only [List.length_cons]
        rw [ih1, hflat, hD]
        simp only [List.nil_append]
        omega
      · have ih2' : (runReader [] cs).1.flatten ++ (runReader [] cs).2 = cs.flatten := by
          simpa using ih2
        rw [hflat]
        simp only [List.flatten_cons, List.append_assoc, ih2']
      · exact ih3
      · intro m hm
        rcases List.mem_cons.mp hm with hm | hm
        · subst hm
          exact ⟨hsuf, hB⟩
        · exact ih4 m hm
    · have hb : terminator.isSuffixOf (buf ++ c) = false := by
        rwa [Bool.not_eq_true] at hsuf
      have hrun : runReader buf (c :: cs) = runReader (buf ++ c) cs := by
        simp [runReader, hb]
      have hH2 : ∀ i, OccAt ((buf ++ c) ++ cs.flatten) i →
          Bdry (buf ++ c).length cs (i + 4) := by
        intro i hi
        rcases H' i hi with h1 | h1
        · exfalso
          have hocc : OccAt (buf ++ c) i := occAt_of_append_left hi (by omega)
          obtain ⟨u', v', he, hlen⟩ := hocc
          have hv' : v' = [] := by
            have hlens := congrArg List.length he
            simp only [List.length_append, terminator_length] at hlens h1
            have : v'.length = 0 := by omega
            exact List.length_eq_zero.mp this
          rw [hv', List.append_nil] at he
          have hyes : terminator.isSuffixOf (buf ++ c) = true :=
            isSuffixOf_exists.mpr ⟨u', he⟩
          rw [hyes] at hb
          exact absurd hb (by simp)
        · exact h1
      have hIH := ih (buf ++ c) hH2
      obtain ⟨ih1, ih2, ih3, ih4⟩ := hIH
      exact ⟨by rw [hrun, ih1, hflat], by rw [hrun, ih2, hflat], by rw [hrun]; exact ih3,
             by rw [hrun]; exact ih4⟩

/-- C1 (counterexample): the loop checks for the terminator only at the end
of the accumulator after each chunk, so terminator occurrences that do not
end at a chunk boundary do not trigger emission.  The single chunk
"ch> ch> " contains exactly two non-overlapping terminator occurrences, the
first at the start and the second immediately after it, yet `onData` is
invoked only once, with the whole buffer "ch> ch> " — not twice with
"ch> " each. -/
theorem frameReader_midChunk_counterexample :
    occCount ['c', 'h', '>', ' ', 'c', 'h', '>', ' '] = 2 ∧
    emittedMessages [['c', 'h', '>', ' ', 'c', 'h', '>', ' ']] =
      [['c', 'h', '>', ' ', 'c', 'h', '>', ' ']] ∧
    (emittedMessages [['c', 'h', '>', ' ', 'c', 'h', '>', ' ']]).length ≠ 2 := by
  refine ⟨by decide, by decide, by decide⟩

/-- C1 (amended): for every chunk sequence whose decoded text contains
exactly `occCount` non-overlapping terminator occurrences, IF every
occurrence ends exactly at a chunk boundary (`chunkAligned`), then `onData`
is invoked exactly once per occurrence, and the emitted messages, each
ending with the terminator and containing exactly one occurrence, together
with the final buffer reconstitute the accumulated text — which pins the
i-th message to the text from the end of the (i-1)-th occurrence up to and
including the i-th.  Occurrences not aligned with a chunk end are not
detected (see the counterexample). -/
theorem frameReader_aligned_emits (chunks : List (List Char))
    (h : chunkAligned chunks = true) :
    (emittedMessages chunks).length = occCount chunks.flatten ∧
    (emittedMessages chunks).flatten ++ finalBuffer chunks = chunks.flatten ∧
    ∀ m ∈ emittedMessages chunks,
      terminator.isSuffixOf m = true ∧ occCount m = 1 := by
  have H : ∀ i, OccAt chunks.flatten i → Bdry 0 chunks (i + 4) := by
    intro i hi
    have hb : i < chunks.flatten.length := by
      have := occAt_length hi
      omega
    have hall := (List.all_eq_true.mp ((chunkAligned.eq_1 chunks) ▸ h)) i
      (List.mem_range.mpr hb)
    rw [Bool.or_eq_true, Bool.not_eq_eq_eq_not, Bool.not_true] at hall
    rcases hall with hall | hall
    · exact absurd (hasOccAt_iff.mpr hi) (by rw [hall]; exact Bool.false_ne_true)
    · exact bdry_iff.mp hall
  have hspec := runReader_spec chunks [] (by simpa using H)
  obtain ⟨h1, h2, _h3, h4⟩ := hspec
  exact ⟨by simpa [emittedMessages] using h1,
         by simpa [emittedMessages, finalBuffer] using h2,
         by simpa [emittedMessages] using h4⟩

/-- C1 witness: the amended theorem on the chunks "ach> ", "xc", "h> " —
two aligned occurrences (the second split across the last two chunks), two
messages emitted. -/
theorem frameReader_aligned_emits_witness :
    chunkAligned [['a', 'c', 'h', '>', ' '], ['x', 'c'], ['h', '>', ' ']] = true ∧
    ((emittedMessages [['a', 'c', 'h', '>', ' '], ['x', 'c'], ['h', '>', ' ']]).length =
       occCount (List.flatten [['a', 'c', 'h', '>', ' '], ['x', 'c'], ['h', '>', ' ']]) ∧
     (emittedMessages [['a', 'c', 'h', '>', ' '], ['x', 'c'], ['h', '>', ' ']]).flatten ++
         finalBuffer [['a', 'c', 'h', '>', ' '], ['x', 'c'], ['h', '>', ' ']] =
       List.flatten [['a', 'c', 'h', '>', ' '], ['x', 'c'], ['h', '>', ' ']] ∧
     ∀ m ∈ emittedMessages [['a', 'c', 'h', '>', ' '], ['x', 'c'], ['h', '>', ' ']],
       terminator.isSuffixOf m = true ∧ occCount m = 1) :=
  ⟨by decide,
   frameReader_aligned_emits [['a', 'c', 'h', '>', ' '], ['x', 'c'], ['h', '>', ' ']]
     (by decide)⟩

/-- C2 (counterexample): the claimed invariant "a PortHandle reference is
held iff the state is Opening/Open/Closing after a successful open" is false:
the initialization effect stores the first previously-authorized port in
`portRef.current` while `portState.current` is still `"closed"` and no open
attempt has happened. -/
theorem handle_invariant_counterexample :
    (initGetPortsEffect initialSession [freshPort]).portRef = some freshPort ∧
    (initGetPortsEffect initialSession [freshPort]).portState = PState.closed :=
  ⟨rfl, rfl⟩

/-- C2 (amended): the forward direction that survives: a successful open
attempt stores the handle and sets the state to Open in the same step (and
throws no error); the converse fails because the initialization effect can
set the handle while the state is Closed, and close never clears it. -/
theorem openPort_success_sets_handle (s : SessionState) (p : Port)
    (h : p.readable = false) :
    (openPort s (some p) true).state.portRef ≠ none ∧
    (openPort s (some p) true).state.portState = PState.opened ∧
    (openPort s (some p) true).err = none := by
  simp [openPort, h]

/-- C2 witness: the amended theorem applied to a fresh session and port. -/
theorem openPort_success_sets_handle_witness :
    freshPort.readable = false ∧
    ((openPort initialSession (some freshPort) true).state.portRef ≠ none ∧
     (openPort initialSession (some freshPort) true).state.portState = PState.opened ∧
     (openPort initialSession (some freshPort) true).err = none) :=
  ⟨rfl, openPort_success_sets_handle initialSession freshPort rfl⟩

/-- C3 (code_bug): on a successfully opened, unlocked session, `closePort`
does call the transport close primitive and returns normally, but it only
clears `isOpen`; `portState.current` stays `"open"` instead of returning to
`"closed"` (no code path in `closePort` writes `portState`). -/
theorem closePort_leaves_state_open :
    (closePort openSession).calls = [TCall.tclose] ∧
    (closePort openSession).err = none ∧
    (closePort openSession).state.isOpen = false ∧
    (closePort openSession).state.portState = PState.opened :=
  ⟨rfl, rfl, rfl, rfl⟩

/-- C5 (counterexample): `stopReading` only raises `cancelRequested`; it does
not release the reader's stream lock.  So after `stopReading` completes (no
error), a subsequent `closePort` still throws `portLocked` as long as the
read loop has not run its `finally`. -/
theorem close_after_stop_counterexample :
    (stopReading (startReading openSession).state).err = none ∧
    (closePort (stopReading (startReading openSession).state).state).err =
      some SerialErr.portLocked :=
  ⟨rfl, rfl⟩

/-- C5 (amended): `closePort` on a session whose held port is open and locked
fails with `portLocked` and makes no transport call; and after `stopReading`
completes AND the read loop has observed the cancellation and released the
lock, `closePort` succeeds and calls the transport close primitive. -/
theorem closePort_lock_discipline (s : SessionState) (p : Port)
    (href : s.portRef = some p) (hr : p.readable = true) :
    (p.locked = true →
      (closePort s).err = some SerialErr.portLocked ∧ (closePort s).calls = []) ∧
    ((closePort (releaseReadLock (stopReading s).state)).err = none ∧
     (closePort (releaseReadLock (stopReading s).state)).calls = [TCall.tclose]) := by
  refine ⟨fun hl => ?_, ?_⟩
  · simp [closePort, href, hr, hl]
  · simp [closePort, stopReading, releaseReadLock, href, hr]

/-- C5 witness: the amended theorem applied to a session whose port is locked
by a running read loop. -/
theorem closePort_lock_discipline_witness :
    (readingSession.portRef = some lockedPort ∧ lockedPort.readable = true) ∧
    ((lockedPort.locked = true →
       (closePort readingSession).err = some SerialErr.portLocked ∧
       (closePort readingSession).calls = []) ∧
     ((closePort (releaseReadLock (stopReading readingSession).state)).err = none ∧
      (closePort (releaseReadLock (stopReading readingSession).state)).calls =
        [TCall.tclose])) :=
  ⟨⟨rfl, rfl⟩, closePort_lock_discipline readingSession lockedPort rfl rfl⟩

/-- C6: a second `openPort` without an intervening close.  A successful open
leaves `portRef.current` holding a port whose readable stream exists, so
calling `openPort` again on that port throws `alreadyOpen` before any state
change and invokes no transport primitive (in particular the transport open
is not called again, whatever it would have answered). -/
theorem openPort_twice_alreadyOpen (s : SessionState) (p : Port) (b : Bool)
    (h : p.readable = false) :
    ∃ p1 : Port,
      (openPort s (some p) true).state.portRef = some p1 ∧
      p1.readable = true ∧
      (openPort (openPort s (some p) true).state (some p1) b).err =
        some SerialErr.alreadyOpen ∧
      (openPort (openPort s (some p) true).state (some p1) b).calls = [] ∧
      (openPort (openPort s (some p) true).state (some p1) b).state =
        (openPort s (some p) true).state := by
  refine ⟨{ p with readable := true, writable := true }, ?_⟩
  simp [openPort, h]

/-- C6 witness: the double-open theorem applied to a fresh session and port. -/
theorem openPort_twice_alreadyOpen_witness :
    freshPort.readable = false ∧
    (∃ p1 : Port,
      (openPort initialSession (some freshPort) true).state.portRef = some p1 ∧
      p1.readable = true ∧
      (openPort (openPort initialSession (some freshPort) true).state (some p1) true).err =
        some SerialErr.alreadyOpen ∧
      (openPort (openPort initialSession (some freshPort) true).state (some p1) true).calls = [] ∧
      (openPort (openPort initialSession (some freshPort) true).state (some p1) true).state =
        (openPort initialSession (some freshPort) true).state) :=
  ⟨rfl, openPort_twice_alreadyOpen initialSession freshPort true rfl⟩

/-- C7: while a port with a readable stream is held, changing exactly one of
the three output signals produces a `setSignals` call that always carries all
three fields — the new value of the changed signal together with the current
values of the two unchanged ones (never a partial, omitted-field call). -/
theorem setSignals_always_full_triple (p : Port) (hr : p.readable = true)
    (brk dtr rts brk' dtr' rts' : Bool)
    (hchange :
      (brk' ≠ brk ∧ dtr' = dtr ∧ rts' = rts) ∨
      (dtr' ≠ dtr ∧ brk' = brk ∧ rts' = rts) ∨
      (rts' ≠ rts ∧ brk' = brk ∧ dtr' = dtr)) :
    setSignalsEffect (some p) brk' dtr' rts' = [TCall.tsetSignals brk' dtr' rts'] ∧
    (brk' ≠ brk → setSignalsEffect (some p) brk' dtr' rts' =
      [TCall.tsetSignals brk' dtr rts]) ∧
    (dtr' ≠ dtr → setSignalsEffect (some p) brk' dtr' rts' =
      [TCall.tsetSignals brk dtr' rts]) ∧
    (rts' ≠ rts → setSignalsEffect (some p) brk' dtr' rts' =
      [TCall.tsetSignals brk dtr rts']) := by
  refine ⟨by simp [setSignalsEffect, hr], fun hb => ?_, fun hd => ?_, fun hs => ?_⟩
  · rcases hchange with ⟨h1, h2, h3⟩ | ⟨h1, h2, h3⟩ | ⟨h1, h2, h3⟩
    · subst h2; subst h3; simp [setSignalsEffect, hr]
    · exact absurd h2 hb
    · exact absurd h2 hb
  · rcases hchange with ⟨h1, h2, h3⟩ | ⟨h1, h2, h3⟩ | ⟨h1, h2, h3⟩
    · exact absurd h2 hd
    · subst h2; subst h3; simp [setSignalsEffect, hr]
    · exact absurd h3 hd
  · rcases hchange with ⟨h1, h2, h3⟩ | ⟨h1, h2, h3⟩ | ⟨h1, h2, h3⟩
    · exact absurd h3 hs
    · exact absurd h3 hs
    · subst h2; subst h3; simp [setSignalsEffect, hr]

/-- C7 witness: the signals theorem applied to an open port with
`requestToSend` flipping from false to true. -/
theorem setSignals_always_full_triple_witness :
    (openedPort.readable = true ∧
     ((true ≠ false ∧ false = false ∧ false = false) ∨
      (false ≠ false ∧ true = true ∧ false = false) ∨
      (false ≠ false ∧ true = true ∧ false = false))) ∧
    (setSignalsEffect (some openedPort) false false true =
       [TCall.tsetSignals false false true] ∧
     (false ≠ false → setSignalsEffect (some openedPort) false false true =
       [TCall.tsetSignals false false false]) ∧
     (false ≠ false → setSignalsEffect (some openedPort) false false true =
       [TCall.tsetSignals false false false]) ∧
     (true ≠ false → setSignalsEffect (some openedPort) false false true =
       [TCall.tsetSignals false false true])) :=
  ⟨⟨rfl, by decide⟩,
   setSignals_always_full_triple openedPort rfl false false false false false true
     (by decide)⟩

/-- C4 (code_bug): decoding is NOT stateful across chunk boundaries.  The
two-byte UTF-8 sequence C3 A9 ("é") split into chunks [C3] and [A9] decodes
per chunk (as the code's `decoder.decode(value)` without `{stream: true}`
does) to two U+FFFD replacement characters, while the same bytes in one
chunk decode to the single character U+00E9 — so the split stream is not
decoded to the same text as the unsplit one. -/
theorem decode_split_not_stateful :
    decodePerChunk [[0xC3], [0xA9]] = [replacementChar, replacementChar] ∧
    decodeString (List.flatten [[0xC3], [0xA9]]) = [Char.ofNat 0xE9] ∧
    decodePerChunk [[0xC3], [0xA9]] ≠ decodeString (List.flatten [[0xC3], [0xA9]]) := by
  refine ⟨rfl, rfl, ?_⟩
  decide

/-- C8: `write` with no held handle returns normally (throws nothing) and
performs no transport call, for every message. -/
theorem write_no_port_noop (message : List Char) :
    write none message = ([], none) := rfl

/-- C9: `autoConnectToPort` when the registry cache is empty: it resolves
with false, puts the state back to `"closed"`, sets `hasTriedAutoconnect`,
and afterwards the automatic trigger condition is false, so the attempt is
made automatically at most once absent a manual retry. -/
theorem autoConnect_empty_registry (s : SessionState) (b : Bool)
    (hc : s.canUseSerial = true) (hs : s.portState = PState.closed) :
    (autoConnectToPort s [] b).returned = some false ∧
    (autoConnectToPort s [] b).state.portState = PState.closed ∧
    (autoConnectToPort s [] b).state.hasTriedAutoconnect = true ∧
    autoConnectEffectFires (autoConnectToPort s [] b).state = false := by
  simp [autoConnectToPort, autoConnectEffectFires, hc, hs]

/-- C9 witness: the auto-connect theorem applied to a fresh session. -/
theorem autoConnect_empty_registry_witness :
    (initialSession.canUseSerial = true ∧ initialSession.portState = PState.closed) ∧
    ((autoConnectToPort initialSession [] true).returned = some false ∧
     (autoConnectToPort initialSession [] true).state.portState = PState.closed ∧
     (autoConnectToPort initialSession [] true).state.hasTriedAutoconnect = true ∧
     autoConnectEffectFires (autoConnectToPort initialSession [] true).state = false) :=
  ⟨⟨rfl, rfl⟩, autoConnect_empty_registry initialSession true rfl rfl⟩

/-- C10: a USB descriptor reporting `usbVendorId = 0` or `usbProductId = 0`
falls to the falsy branch of `portInfo`'s truthiness guard exactly like an
absent descriptor, so `portInfo` returns null and derives no id string. -/
theorem portInfo_zero_id_none (d : PortDescriptor)
    (h : d.usbVendorId = some 0 ∨ d.usbProductId = some 0) :
    portInfo d = none := by
  rcases h with h | h <;> simp [portInfo, truthyNat, h]

/-- C10 witness: `portInfo` on a descriptor with a zero vendor id. -/
theorem portInfo_zero_id_none_witness :
    ((⟨some 0, some 4660⟩ : PortDescriptor).usbVendorId = some 0 ∨
     (⟨some 0, some 4660⟩ : PortDescriptor).usbProductId = some 0) ∧
    portInfo ⟨some 0, some 4660⟩ = none :=
  ⟨Or.inl rfl, portInfo_zero_id_none ⟨some 0, some 4660⟩ (Or.inl rfl)⟩

end SerialProvider
